import Mathlib

/-!
A shallow embedding of the incremental-annotation scripts of the
gesture-annotation repository (s0/s3/s4/s5).  Tables are pandas
DataFrames keyed by the `id_video` column; a cell is either a present
string or absent (NaN).  A row is embedded sparsely as an association
list from column name to present value; an absent cell is simply not in
the list, matching `isna` semantics.
-/

/-- A DataFrame row: the present cells only, column name paired with the
stored string.  A column not in the list is absent (NaN). -/
abbrev TRow := List (String × String)

/-- A DataFrame: its ordered column names and its rows. -/
structure Table where
  cols : List String
  rows : List TRow
deriving DecidableEq

/-- `df.loc[row, c]` as an optional value: the first cell of the row whose
column is `c`, absent (NaN) when the row has none. -/
def getCell (r : TRow) (c : String) : Option String :=
  List.lookup c r

/-- Whether a row belongs to key `k`: `df["id_video"] == k` on this row. -/
def rowMatches (r : TRow) (k : String) : Bool :=
  getCell r "id_video" == some k

/-- `df.loc[df["id_video"] == k]`: all rows matching key `k`. -/
def matchingRows (t : Table) (k : String) : List TRow :=
  t.rows.filter (fun r => rowMatches r k)

/-- `df.loc[df["id_video"] == k, c]`: the column-`c` cells of the rows
matching `k`. -/
def cellValues (t : Table) (k c : String) : List (Option String) :=
  (matchingRows t k).map (fun r => getCell r c)

/-- `df.loc[df["id_video"] == k, c].isna().all()`: the (key, column) cell is
absent in every matching row (vacuously true when no row matches). -/
def is_absent (t : Table) (k c : String) : Bool :=
  (cellValues t k c).all (fun o => o.isNone)

/-- `k in df["id_video"].values`. -/
def hasKey (t : Table) (k : String) : Bool :=
  t.rows.any (fun r => rowMatches r k)

/-- The row appended by the ensure-row concat: only `id_video` is set,
every other column absent (`pd.DataFrame({"id_video": [k]})`). -/
def newRow (k : String) : TRow :=
  [("id_video", k)]

/-- The ensure-row step of the loops: when no row has identifier `k`,
`pd.concat([df, pd.DataFrame({"id_video": [k]})], ignore_index=True)`. -/
def ensure_row (t : Table) (k : String) : Table :=
  if hasKey t k then t else { t with rows := t.rows ++ [newRow k] }

/-- Setting column `c` of one row to `v`: replace the first present cell in
column `c`, or add the cell when the column was absent. -/
def setCellRow : TRow → String → String → TRow
  | [], c, v => [(c, v)]
  | p :: r, c, v => if p.fst == c then (c, v) :: r else p :: setCellRow r c v

/-- `df.loc[df["id_video"] == k, c] = v`: writes `v` into column `c` of every
row matching `k`; a column not yet in the frame is added (all-false masks
write no row).  No error is signalled when no row matches. -/
def set_cell (t : Table) (k c v : String) : Table :=
  { cols := if t.cols.contains c then t.cols else t.cols ++ [c],
    rows := t.rows.map (fun r => if rowMatches r k then setCellRow r c v else r) }

/-- Lexicographic strict order on character lists, by code point — the
order Python string comparison uses. -/
def lexLT : List Char → List Char → Bool
  | [], [] => false
  | [], _ :: _ => true
  | _ :: _, [] => false
  | a :: as, b :: bs =>
    if a < b then true else if b < a then false else lexLT as bs

/-- `a <= b` for Python strings: not `b < a` lexicographically. -/
def strLE (a b : String) : Bool :=
  !(lexLT b.data a.data)

/-- The row order used by `df.sort_values(by="id_video")`: ascending by the
identifier cell, rows with an absent identifier last. -/
def keyLE (r1 r2 : TRow) : Bool :=
  match getCell r1 "id_video", getCell r2 "id_video" with
  | some a, some b => strLE a b
  | some _, none => true
  | none, some _ => false
  | none, none => true

/-- `df.sort_values(by="id_video").reset_index(drop=True)` (embedded with a
structurally recursive sort so that runs evaluate inside the kernel). -/
def sort_by_key (t : Table) : Table :=
  { t with rows := t.rows.insertionSort (fun r1 r2 => keyLE r1 r2 = true) }

/-- The output schema of s3/s4: `id_video` then `c1_description` …
`c8_description` (`[f"c{i}_description" for i in range(1, 9)]` with
`id_video` inserted first). -/
def schemaColumns : List String :=
  "id_video" :: (List.range' 1 8).map (fun i => "c" ++ toString i ++ "_description")

/-- The field strings pandas `read_csv` parses as NaN by default (its
`na_values`), the empty field among them. -/
def naTokens : List String :=
  ["", "#N/A", "#N/A N/A", "#NA", "-1.#IND", "-1.#QNAN", "-NaN", "-nan",
   "1.#IND", "1.#QNAN", "<NA>", "N/A", "NA", "NULL", "NaN", "None",
   "n/a", "nan", "null"]

/-- The non-digit characters a pandas-parseable number can consist of. -/
def numericChars : List Char :=
  ['+', '-', '.', 'e', 'E']

/-- A field made only of digits, signs, decimal points and exponent
letters.  Over-approximates the fields pandas can parse as int64 or
float64. -/
def numericLike (s : String) : Bool :=
  !s.data.isEmpty && s.data.all (fun c => c.isDigit || numericChars.contains c)

/-- The boolean tokens pandas' parser converts to bool. -/
def boolTokens : List String :=
  ["True", "TRUE", "true", "False", "FALSE", "false"]

/-- Is the field one of the boolean tokens. -/
def boolLike (s : String) : Bool :=
  boolTokens.contains s

/-- A field spelling an (optionally signed) infinity, case-insensitively. -/
def infLike (s : String) : Bool :=
  let core := match s.data with
    | '+' :: rest => rest
    | '-' :: rest => rest
    | l => l
  (["inf", "infinity"] : List String).contains ⟨core.map Char.toLower⟩

/-- Over-approximation of the single fields pandas' `read_csv` converters
can turn into a non-string scalar (int64, float64, bool, infinity).  The
direction of the approximation matters: every field pandas can really
convert lies in this set, so a field outside it forces its whole column
to object dtype, where text is kept verbatim. -/
def convertible (s : String) : Bool :=
  numericLike s || boolLike s || infLike s

/-- Whether `read_csv` converts a whole column to a non-string dtype:
every non-NA field of the column parses (in this model: is
`convertible`).  Columns are identified by header name; the saved tables
this development considers have unique headers. -/
def colConverted (header : List String) (data : List (List String)) (c : String) : Bool :=
  data.all (fun fields =>
    naTokens.contains ((getCell (header.zip fields) c).getD "")
    || convertible ((getCell (header.zip fields) c).getD ""))

/-- `pd.read_csv` on a field matrix: the first row is the header; a field
whose text is one of the default NA tokens (the empty field included)
loads as an absent cell.  A column whose non-NA fields all parse as
numbers or booleans is converted to that dtype, so its stored text is
re-rendered by the library's scalar formatter — e.g. `"1.10"` loads as
the float `1.1` and `"007"` as the integer `7`.  Binary floating-point
formatting is outside this embedding, so the formatter is the abstract
`render` parameter; a column with any non-convertible field stays object
dtype and keeps its fields verbatim. -/
def loadTable (render : String → String) (m : List (List String)) : Table :=
  match m with
  | [] => { cols := [], rows := [] }
  | header :: data =>
    { cols := header,
      rows := data.map (fun fields =>
        (header.zip fields).filterMap (fun p =>
          if naTokens.contains p.snd then none
          else some (p.fst,
            if colConverted header data p.fst then render p.snd else p.snd))) }

/-- The load-or-create step of s3/s4: `pd.read_csv(file_path)` when the file
exists, else `pd.DataFrame(columns=columns)` — the schema columns and zero
rows.  The scalar formatter is irrelevant to the missing-file branch this
development reasons about, so it is fixed to the identity here. -/
def loadOrCreate (file : Option (List (List String))) : Table :=
  match file with
  | none => { cols := schemaColumns, rows := [] }
  | some m => loadTable (fun s => s) m

/-- The blocklist of "no gesture" sentences removed by
s5_annotation_data_cleaning. -/
def noGestureTerms : List String :=
  ["No gesture performed.",
   "No hand gesture performed.",
   "The user does not perform any gesture.",
   "The user does not perform any hand gesture.",
   "The user does not perform any hand gestures.",
   "The user does not perform any gesture throughout the sequence.",
   "The user does not perform any distinct gesture.",
   "No discernible hand gesture is performed."]

/-- `df.replace(r"\.$", "", regex=True)` on one present value.  Python's
`$` (without MULTILINE) matches at the end of the string and also just
before a string-final newline, so the removed period is either the last
character or the one sitting directly before a trailing newline
(`re.sub(r"\.$", "", "a..\n") = "a.\n"`).  At most one position can
match. -/
def stripDot (s : String) : String :=
  if s.data.getLast? = some '.' then ⟨s.data.dropLast⟩
  else if s.data.getLast? = some '\n' ∧ s.data.dropLast.getLast? = some '.' then
    ⟨s.data.dropLast.dropLast ++ ['\n']⟩
  else s

/-- One present cell under the cleaning script: a value equal to a blocklist
sentence becomes absent (`df.replace(term, pd.NA)`), any other value loses
a trailing period. -/
def cleanCell (v : String) : Option String :=
  if noGestureTerms.contains v then none else some (stripDot v)

/-- The cleaning transform on one row (every column, `id_video` included,
as `df.replace` acts on the whole frame). -/
def cleanRow (r : TRow) : TRow :=
  r.filterMap (fun p => (cleanCell p.snd).map (fun w => (p.fst, w)))

/-- The s5_annotation_data_cleaning transform on a loaded table. -/
def clean (t : Table) : Table :=
  { t with rows := t.rows.map cleanRow }

/-- The string tails on which a second regex pass can still strip a
period: ending in `..`, in `..\n`, or in `.\n.` — after one strip such a
value again has a period at a `$` position (or has become a blocklist
sentence). -/
def doubleStripRisk (s : String) : Bool :=
  (s.data.getLast? == some '.' && s.data.dropLast.getLast? == some '.')
  || (s.data.getLast? == some '\n' && s.data.dropLast.getLast? == some '.'
      && s.data.dropLast.dropLast.getLast? == some '.')
  || (s.data.getLast? == some '.' && s.data.dropLast.getLast? == some '\n'
      && s.data.dropLast.dropLast.getLast? == some '.')

/-- The s3 sampling indices for `file_count` files:
`int((file_count - 1) * i / (SAMPLE_SIZE - 1))` for `i in range(50)` (the
float expression is exact at these magnitudes, so Nat floor division
coincides with it). -/
def sampleIndices (fileCount : Nat) : List Nat :=
  (List.range 50).map (fun i => (fileCount - 1) * i / 49)

/-- The s3 50-item sampling block: when more than 50 filenames are present,
keep the evenly-spaced indices and re-sort the kept names; otherwise the
list is untouched. -/
def sampleFiles (filenames : List String) : List String :=
  if 50 < filenames.length then
    ((sampleIndices filenames.length).map (fun i => filenames.getD i "")).mergeSort
      (fun a b => strLE a b)
  else filenames

/-- Python `str.strip()` on the trailing side: drop whitespace from the end. -/
def stripTrailing (l : List Char) : List Char :=
  (l.reverse.dropWhile Char.isWhitespace).reverse

/-- Python `str.strip()`: drop whitespace from both ends. -/
def pyStrip (l : List Char) : List Char :=
  stripTrailing (l.dropWhile Char.isWhitespace)

/-- Python `str.capitalize()` on ASCII text: first character uppercased,
the rest lowercased. -/
def pyCapitalize : List Char → List Char
  | [] => []
  | c :: cs => c.toUpper :: cs.map Char.toLower

/-- The post-processing of `predict_ucp_command` on the model output:
`re.sub(r'[^a-zA-Z]', ' ', response_content).strip().capitalize()`
(`Char.isAlpha` is exactly ASCII `a-zA-Z`). -/
def normalizeCommand (s : String) : String :=
  ⟨pyCapitalize (pyStrip (s.data.map (fun c => if c.isAlpha then c else ' ')))⟩

/-- The value written into a command cell by the s5 prediction loop:
`result.strip()` applied to the `predict_ucp_command` output. -/
def storedCommand (s : String) : String :=
  ⟨pyStrip (normalizeCommand s).data⟩

/-- The two failure modes of the annotation source: `SourceUnavailable` is
the `ValueError` raised for missing credentials (uncaught, fatal);
`SourceRejected` is the `RuntimeError` of a provider content block (caught,
the unit is skipped). -/
inductive SourceError where
  | unavailable
  | rejected
deriving DecidableEq

deriving instance DecidableEq for Except

/-- One candidate unit of the annotation loop: the video identifier and the
description/command column its folder or upstream cell maps to. -/
structure AnnUnit where
  key : String
  col : String
deriving DecidableEq

/-- The per-unit loop shared by the s3/s4/s5 `__main__` blocks, with the
saves (`df.to_csv` calls) traced.  For each unit: ensure the key's row,
skip when the cell is already annotated, call the source; on success write
the cell and save; on a caught `RuntimeError` (`SourceRejected`) continue;
on `ValueError` (`SourceUnavailable`) the exception propagates, carrying
the in-memory table and whatever was saved before the abort. -/
def runUnits (produce : AnnUnit → Except SourceError String) :
    List AnnUnit → Table → Except (SourceError × Table × List Table) (Table × List Table)
  | [], t => .ok (t, [])
  | u :: us, t =>
    let t1 := ensure_row t u.key
    if is_absent t1 u.key u.col then
      match produce u with
      | .ok v =>
        let t2 := set_cell t1 u.key u.col v
        match runUnits produce us t2 with
        | .ok (tf, saves) => .ok (tf, t2 :: saves)
        | .error (e, te, saves) => .error (e, te, t2 :: saves)
      | .error .rejected => runUnits produce us t1
      | .error .unavailable => .error (.unavailable, t1, [])
    else runUnits produce us t1

/-- A whole annotator run: the unit loop followed by the final
`sort_values` / `to_csv` canonicalization pass (which is itself a save). -/
def runAnnotator (produce : AnnUnit → Except SourceError String)
    (units : List AnnUnit) (t : Table) :
    Except (SourceError × Table × List Table) (Table × List Table) :=
  match runUnits produce units t with
  | .ok (tf, saves) => .ok (sort_by_key tf, saves ++ [sort_by_key tf])
  | .error e => .error e

/-- The environment credentials read by `get_azure_openai_client`:
`AZURE_OPENAI_API_KEY` and `AZURE_OPENAI_ENDPOINT`, each possibly unset. -/
structure AzureConfig where
  apiKey : Option String
  endpoint : Option String

/-- `get_azure_openai_client`: raises `ValueError` (`SourceUnavailable`)
when the key or the endpoint is missing from the environment, otherwise
yields the client configuration. -/
def get_azure_openai_client (cfg : AzureConfig) : Except SourceError (String × String) :=
  match cfg.apiKey with
  | none => .error .unavailable
  | some key =>
    match cfg.endpoint with
    | none => .error .unavailable
    | some ep => .ok (key, ep)

/-- `describe_hand_gesture`: constructs the client first (so a missing
credential fails here, at the first call inside the loop), then performs
the opaque remote call. -/
def describeWithConfig (cfg : AzureConfig) (call : Except SourceError String) :
    Except SourceError String :=
  match get_azure_openai_client cfg with
  | .error e => .error e
  | .ok _ => call

/-- A one-row table whose description cell ends in two periods. -/
def cexTableC2 : Table :=
  { cols := schemaColumns,
    rows := [[("id_video", "v1"), ("c1_description", "Hand raised..")]] }

/-- A one-row table holding the spec's own example value (single trailing
period). -/
def witTableC2 : Table :=
  { cols := schemaColumns,
    rows := [[("id_video", "v1"), ("c1_description", "Hand raised.")]] }

/-- A one-row table with identifier `v1` and the s3 schema. -/
def cexTableC3 : Table :=
  { cols := schemaColumns, rows := [[("id_video", "v1")]] }

/-- The identifier-uniqueness invariant: no two rows share the same
`id_video` cell (two rows both lacking it also count as duplicates, as in
a pandas uniqueness check on the column). -/
def keysUnique (t : Table) : Prop :=
  (t.rows.map (fun r => getCell r "id_video")).Nodup

/-- A strictly sorted 120-item list of file names. -/
def witListC5 : List String :=
  (List.range 120).map (fun i => "f" ++ toString (100 + i))

/-- A table whose `c1_description` cell for `v1` is already filled. -/
def witTableC1 : Table :=
  { cols := schemaColumns,
    rows := [[("id_video", "v1"), ("c1_description", "Old text")]] }

/-- A source that always produces a (different) description. -/
def witProduceC1 : AnnUnit → Except SourceError String :=
  fun _ => .ok "New text"

/-- Two candidate units over the same key: one for the filled cell, one for
an absent cell. -/
def witUnitsC1 : List AnnUnit :=
  [⟨"v1", "c1_description"⟩, ⟨"v1", "c2_description"⟩]

/-- The table the C1 witness run produces: only the absent `c2` cell was
written. -/
def witTableC1after : Table :=
  { cols := schemaColumns,
    rows := [[("id_video", "v1"), ("c1_description", "Old text"),
      ("c2_description", "New text")]] }

/-- An environment with neither credential set. -/
def cexConfigC4 : AzureConfig :=
  { apiKey := none, endpoint := none }

/-- The s3 produce step under the missing-credential environment (the
remote call itself would succeed). -/
def cexProduceC4 : AnnUnit → Except SourceError String :=
  fun _ => describeWithConfig cexConfigC4 (.ok "A description")

/-- One candidate unit whose key is not in the table yet. -/
def cexUnitsC4 : List AnnUnit :=
  [⟨"v1", "c1_description"⟩]

/-- The empty s3 output table. -/
def cexTableC4 : Table :=
  { cols := schemaColumns, rows := [] }

/-- A stub source that always reports a provider content block. -/
def cexProduceC6 : AnnUnit → Except SourceError String :=
  fun _ => .error .rejected

/-- The spec's own end-to-end stub: three units, the second one rejected. -/
def witProduceC6 : AnnUnit → Except SourceError String :=
  fun u => if u.col = "c2_description" then .error .rejected
    else .ok "Closed fist moves up."

/-- Three candidate units for one video. -/
def witUnitsC6 : List AnnUnit :=
  [⟨"v1", "c1_description"⟩, ⟨"v1", "c2_description"⟩, ⟨"v1", "c3_description"⟩]

/-! ### Basic cell lemmas -/

theorem contains_iff_mem' {l : List String} {a : String} :
    l.contains a = true ↔ a ∈ l := by
  simp [List.contains, List.elem_iff]

theorem getCell_newRow_id (k : String) : getCell (newRow k) "id_video" = some k := by
  simp [getCell, newRow, List.lookup]

theorem getCell_newRow_ne (k c : String) (h : c ≠ "id_video") :
    getCell (newRow k) c = none := by
  simp [getCell, newRow, List.lookup, beq_eq_false_iff_ne.mpr h]

theorem rowMatches_iff {r : TRow} {k : String} :
    rowMatches r k = true ↔ getCell r "id_video" = some k := by
  simp [rowMatches]

theorem rowMatches_newRow (k : String) : rowMatches (newRow k) k = true := by
  simp [rowMatches_iff, getCell_newRow_id]

theorem rowMatches_newRow_ne (k k' : String) (h : k ≠ k') :
    rowMatches (newRow k) k' = false := by
  simp [rowMatches, getCell_newRow_id, h]

theorem rowMatches_unique {r : TRow} {k k' : String}
    (h1 : rowMatches r k = true) (h2 : rowMatches r k' = true) : k = k' := by
  rw [rowMatches_iff] at h1 h2
  rw [h1] at h2
  exact Option.some.inj h2

theorem getCell_setCellRow (r : TRow) (c v c' : String) :
    getCell (setCellRow r c v) c' = if c' = c then some v else getCell r c' := by
  induction r with
  | nil =>
    by_cases h : c' = c <;>
      simp [setCellRow, getCell, List.lookup, h, beq_eq_false_iff_ne.mpr]
  | cons p r ih =>
    by_cases hp : p.fst = c
    · by_cases h : c' = c
      · simp [setCellRow, getCell, List.lookup, hp, h]
      · simp [setCellRow, getCell, List.lookup, hp, h, beq_eq_false_iff_ne.mpr h]
    · by_cases h : c' = p.fst
      · have hcc : ¬ c' = c := by rw [h]; exact hp
        simp [setCellRow, getCell, List.lookup, beq_eq_false_iff_ne.mpr hp, h, hcc, hp]
      · simp [setCellRow, getCell, List.lookup, beq_eq_false_iff_ne.mpr hp,
          beq_eq_false_iff_ne.mpr h] at ih ⊢
        exact ih

theorem rowMatches_setCellRow (r : TRow) (c v : String) (k : String)
    (h : c ≠ "id_video") :
    rowMatches (setCellRow r c v) k = rowMatches r k := by
  have h' : ¬ ("id_video" = c) := fun hc => h hc.symm
  simp [rowMatches, getCell_setCellRow, h']

/-! ### Cleaning (s5_annotation_data_cleaning) -/

theorem noGestureTerms_end_dot : ∀ s ∈ noGestureTerms, s.data.getLast? = some '.' := by
  decide

theorem stripDot_of_dot {v : String} (hd : v.data.getLast? = some '.') :
    stripDot v = ⟨v.data.dropLast⟩ := by
  rw [stripDot, if_pos hd]

theorem stripDot_of_dot_nl {v : String} (h1 : v.data.getLast? = some '\n')
    (h2 : v.data.dropLast.getLast? = some '.') :
    stripDot v = ⟨v.data.dropLast.dropLast ++ ['\n']⟩ := by
  rw [stripDot, if_neg (by rw [h1]; simp), if_pos ⟨h1, h2⟩]

theorem stripDot_of_none {v : String} (h1 : ¬ v.data.getLast? = some '.')
    (h2 : ¬ (v.data.getLast? = some '\n' ∧ v.data.dropLast.getLast? = some '.')) :
    stripDot v = v := by
  rw [stripDot, if_neg h1, if_neg h2]

theorem cleanCell_of_not_term {v : String} (ht : noGestureTerms.contains v = false) :
    cleanCell v = some (stripDot v) := by
  rw [cleanCell, if_neg (by rw [ht]; exact Bool.false_ne_true)]

theorem cleanCell_fix (v w : String) (h : doubleStripRisk v = false)
    (hc : cleanCell v = some w) : cleanCell w = some w := by
  cases ht : noGestureTerms.contains v with
  | true =>
    rw [cleanCell, if_pos ht] at hc
    exact absurd hc (by simp)
  | false =>
    rw [cleanCell_of_not_term ht, Option.some.injEq] at hc
    subst hc
    simp only [doubleStripRisk, Bool.or_eq_false_iff, Bool.and_eq_false_iff,
      beq_eq_false_iff_ne] at h
    obtain ⟨⟨hA, hB⟩, hC⟩ := h
    by_cases hd : v.data.getLast? = some '.'
    · have hw : (stripDot v).data = v.data.dropLast := by rw [stripDot_of_dot hd]
      have hnotdot : ¬ v.data.dropLast.getLast? = some '.' := by
        rcases hA with h' | h'
        · exact absurd hd h'
        · exact h'
      have hnotnl : ¬ ((stripDot v).data.getLast? = some '\n' ∧
          (stripDot v).data.dropLast.getLast? = some '.') := by
        rw [hw]
        rintro ⟨hnl, hdot2⟩
        rcases hC with (h' | h') | h'
        · exact h' hd
        · exact h' hnl
        · exact h' hdot2
      have hterm : noGestureTerms.contains (stripDot v) = false := by
        cases hq : noGestureTerms.contains (stripDot v) with
        | false => rfl
        | true =>
          have hdot := noGestureTerms_end_dot _ (contains_iff_mem'.mp hq)
          rw [hw] at hdot
          exact absurd hdot hnotdot
      rw [cleanCell_of_not_term hterm,
        stripDot_of_none (by rw [hw]; exact hnotdot) hnotnl]
    · by_cases hnl : v.data.getLast? = some '\n' ∧ v.data.dropLast.getLast? = some '.'
      · obtain ⟨hnl1, hnl2⟩ := hnl
        have hw : (stripDot v).data = v.data.dropLast.dropLast ++ ['\n'] := by
          rw [stripDot_of_dot_nl hnl1 hnl2]
        have hwlast : (stripDot v).data.getLast? = some '\n' := by
          rw [hw]
          exact List.getLast?_concat _
        have hwdrop : (stripDot v).data.dropLast = v.data.dropLast.dropLast := by
          rw [hw]
          exact List.dropLast_concat
        have hnot3 : ¬ v.data.dropLast.dropLast.getLast? = some '.' := by
          rcases hB with (h' | h') | h'
          · exact absurd hnl1 h'
          · exact absurd hnl2 h'
          · exact h'
      

        have hterm : noGestureTerms.contains (stripDot v) = false := by
          cases hq : noGestureTerms.contains (stripDot v) with
          | false => rfl
          | true =>
            have hdot := noGestureTerms_end_dot _ (contains_iff_mem'.mp hq)
            rw [hwlast] at hdot
            exact absurd hdot (by simp)
        rw [cleanCell_of_not_term hterm]
        rw [stripDot_of_none (by rw [hwlast]; simp) ?_]
        rintro ⟨_, hdot2⟩
        rw [hwdrop] at hdot2
        exact hnot3 hdot2
      · have hv : stripDot v = v := stripDot_of_none hd hnl
        rw [hv, cleanCell_of_not_term ht, hv]

theorem cleanRow_fix (r : TRow) (h : ∀ p ∈ r, doubleStripRisk p.snd = false) :
    cleanRow (cleanRow r) = cleanRow r := by
  induction r with
  | nil => rfl
  | cons p r ih =>
    have hp := h p (List.mem_cons_self p r)
    have ih' := ih (fun q hq => h q (List.mem_cons_of_mem p hq))
    cases hc : cleanCell p.snd with
    | none => simp [cleanRow, List.filterMap_cons, hc] at ih' ⊢; exact ih'
    | some w =>
      have hw : cleanCell w = some w := cleanCell_fix p.snd w hp hc
      simp [cleanRow, List.filterMap_cons, hc, hw] at ih' ⊢
      exact ih'

/-- Claim C2 (corrected): `clean` applied twice equals `clean` applied once
for every table in which no cell value ends in `..`, `..\n` or `.\n.`
(the tails on which the `\.$` substitution can fire a second time, `$`
matching both at the end and before a trailing newline).  The
unrestricted claim is false: a value ending in `..` loses one period per
pass, see the counterexample. -/
theorem clean_idempotent_unless_double_dot (t : Table)
    (h : ∀ r ∈ t.rows, ∀ p ∈ r, doubleStripRisk p.snd = false) :
    clean (clean t) = clean t := by
  cases t with
  | mk cols rows =>
    simp only [clean, List.map_map]
    refine congrArg _ ?_
    refine List.map_congr_left ?_
    intro r hr
    exact cleanRow_fix r (h r hr)

/-- Claim C2's counterexample: on a cell value ending in `..` the first
`clean` strips one period and the second strips another, so `clean` is not
idempotent as claimed. -/
theorem clean_idempotent_cex : clean (clean cexTableC2) ≠ clean cexTableC2 := by
  decide

/-- Claim C2's amended theorem holds on a concrete table (the spec's own
example value). -/
theorem clean_idempotent_witness : clean (clean witTableC2) = clean witTableC2 :=
  clean_idempotent_unless_double_dot witTableC2 (by decide)

/-! ### set_cell on a missing key (C3) and load-or-create (C9) -/

/-- Claim C3 (corrected): when no row carries identifier `k` and column `c`
is already in the schema, the `df.loc` cell assignment is a silent no-op —
the table is returned unchanged and no error of any kind is signalled
(pandas writes nothing under an all-false mask). -/
theorem set_cell_missing_key_noop (t : Table) (k c v : String)
    (hk : hasKey t k = false) (hc : t.cols.contains c = true) :
    set_cell t k c v = t := by
  obtain ⟨cols, rows⟩ := t
  have hrows : ∀ r ∈ rows, rowMatches r k = false := by
    intro r hr
    have := List.any_eq_false.mp hk r hr
    simpa using this
  simp only [set_cell, hc, if_true]
  refine congrArg _ ?_
  have : rows.map (fun r => if rowMatches r k then setCellRow r c v else r) =
      rows.map (fun r => r) := by
    refine List.map_congr_left ?_
    intro r hr
    rw [hrows r hr]
    simp
  rw [this, List.map_id']

/-- Claim C3's counterexample: assigning a cell for the missing key `v2`
succeeds silently and leaves the table unchanged, instead of failing with
`KeyNotFound` as the claim states. -/
theorem set_cell_missing_key_cex :
    set_cell cexTableC3 "v2" "c1_description" "x" = cexTableC3 := by
  decide

/-- Claim C3's amended theorem at a concrete input. -/
theorem set_cell_missing_key_witness :
    set_cell cexTableC3 "v9" "c2_description" "y" = cexTableC3 :=
  set_cell_missing_key_noop cexTableC3 "v9" "c2_description" "y" (by decide) (by decide)

/-- Claim C9 (confirmed): loading a path whose file does not exist yields an
empty table whose columns are exactly the schema's — the identifier column
followed by the eight description slots — and which has zero rows. -/
theorem load_missing_file_empty_schema :
    loadOrCreate none = { cols := schemaColumns, rows := [] } ∧
    schemaColumns =
      ["id_video", "c1_description", "c2_description", "c3_description",
       "c4_description", "c5_description", "c6_description", "c7_description",
       "c8_description"] ∧
    (loadOrCreate none).rows.length = 0 := by
  refine ⟨rfl, by decide, rfl⟩

/-! ### ensure_row (C8) -/

theorem hasKey_eq_false_iff {t : Table} {k : String} :
    hasKey t k = false ↔ ∀ r ∈ t.rows, rowMatches r k = false := by
  constructor
  · intro h r hr
    have := List.any_eq_false.mp h r hr
    simpa using this
  · intro h
    exact List.any_eq_false.mpr (fun r hr => by rw [h r hr]; simp)

theorem ensure_row_of_hasKey {t : Table} {k : String} (h : hasKey t k = true) :
    ensure_row t k = t := by
  rw [ensure_row, if_pos h]

theorem ensure_row_of_not_hasKey {t : Table} {k : String} (h : hasKey t k = false) :
    ensure_row t k = { t with rows := t.rows ++ [newRow k] } := by
  rw [ensure_row, if_neg (by rw [h]; exact Bool.false_ne_true)]

theorem hasKey_ensure_row (t : Table) (k : String) :
    hasKey (ensure_row t k) k = true := by
  cases h : hasKey t k with
  | true => rw [ensure_row_of_hasKey h]; exact h
  | false =>
    rw [ensure_row_of_not_hasKey h, hasKey, List.any_append]
    simp [rowMatches_newRow]

/-- Claim C8 (confirmed): on a table with unique identifiers, `ensure_row`
keeps identifiers unique; it returns the table unchanged when the key
already has a row, otherwise appends exactly one row whose slot cells are
all absent; and a second call with the same key changes nothing. -/
theorem ensure_row_spec (t : Table) (k : String) (huniq : keysUnique t) :
    keysUnique (ensure_row t k) ∧
    (hasKey t k = true → ensure_row t k = t) ∧
    (hasKey t k = false →
      (ensure_row t k).rows = t.rows ++ [newRow k] ∧
      ∀ c, c ≠ "id_video" → getCell (newRow k) c = none) ∧
    ensure_row (ensure_row t k) k = ensure_row t k := by
  refine ⟨?_, fun h => ensure_row_of_hasKey h, ?_, ?_⟩
  · cases h : hasKey t k with
    | true => rw [ensure_row_of_hasKey h]; exact huniq
    | false =>
      rw [ensure_row_of_not_hasKey h]
      unfold keysUnique at huniq ⊢
      rw [List.map_append, List.nodup_append]
      refine ⟨huniq, by simp, ?_⟩
      rw [List.map_singleton, getCell_newRow_id, List.disjoint_singleton]
      intro hmem
      obtain ⟨r, hr, hg⟩ := List.mem_map.mp hmem
      have := hasKey_eq_false_iff.mp h r hr
      rw [rowMatches, hg] at this
      simp at this
  · intro h
    refine ⟨by rw [ensure_row_of_not_hasKey h], fun c hc => getCell_newRow_ne k c hc⟩
  · exact ensure_row_of_hasKey (hasKey_ensure_row t k)

/-- Claim C8's theorem applied at a concrete table and key. -/
theorem ensure_row_spec_witness :
    keysUnique (ensure_row cexTableC3 "v2") ∧
    (hasKey cexTableC3 "v2" = true → ensure_row cexTableC3 "v2" = cexTableC3) ∧
    (hasKey cexTableC3 "v2" = false →
      (ensure_row cexTableC3 "v2").rows = cexTableC3.rows ++ [newRow "v2"] ∧
      ∀ c, c ≠ "id_video" → getCell (newRow "v2") c = none) ∧
    ensure_row (ensure_row cexTableC3 "v2") "v2" = ensure_row cexTableC3 "v2" :=
  ensure_row_spec cexTableC3 "v2" (by unfold keysUnique; decide)

/-! ### save/load round-trip (C7) -/

theorem lexLT_eq_false_of_lex {as bs : List Char}
    (h : List.Lex (fun a b => a < b) as bs) : lexLT bs as = false := by
  induction h with
  | nil => rfl
  | cons h ih => rw [lexLT, if_neg (lt_irrefl _), if_neg (lt_irrefl _), ih]
  | rel h => rw [lexLT, if_neg (lt_asymm h), if_pos h]

theorem lex_of_lexLT : ∀ {as bs : List Char}, lexLT as bs = true →
    List.Lex (fun a b => a < b) as bs
  | [], [], h => by simp [lexLT] at h
  | [], _ :: _, _ => List.Lex.nil
  | _ :: _, [], h => by simp [lexLT] at h
  | a :: as, b :: bs, h => by
    by_cases hab : a < b
    · exact List.Lex.rel hab
    · by_cases hba : b < a
      · rw [lexLT, if_neg hab, if_pos hba] at h
        exact absurd h (by simp)
      · have heq : a = b := le_antisymm (le_of_not_lt hba) (le_of_not_lt hab)
        subst heq
        rw [lexLT, if_neg hab, if_neg hba] at h
        exact List.Lex.cons (lex_of_lexLT h)

theorem strLE_of_lt {a b : String} (h : a < b) : strLE a b = true := by
  rw [String.lt_iff_toList_lt] at h
  have h2 : lexLT b.data a.data = false := lexLT_eq_false_of_lex h
  rw [strLE, h2]
  rfl

theorem sampleIndices_120_facts :
    (sampleIndices 120).length = 50 ∧
    (sampleIndices 120).Pairwise (· < ·) ∧
    (∀ i ∈ sampleIndices 120, i < 120) ∧
    0 ∈ sampleIndices 120 ∧ 119 ∈ sampleIndices 120 := by
  decide

theorem map_getD_sublist (l : List String) (d : String) (idx : List Nat)
    (hp : idx.Pairwise (· < ·)) (hb : ∀ i ∈ idx, i < l.length) :
    (idx.map (fun i => l.getD i d)).Sublist l := by
  have h1 : idx.map (fun i => l.getD i d) =
      (idx.pmap (fun i h => (⟨i, h⟩ : Fin l.length)) hb).map (fun x => l[x]) := by
    rw [List.map_pmap]
    calc idx.map (fun i => l.getD i d)
        = idx.pmap (fun i _ => l.getD i d) hb := (List.pmap_eq_map _ _ _ _).symm
      _ = idx.pmap (fun i h => l[i]) hb := by
          refine List.pmap_congr_left idx ?_
          intro i hi hle hlt
          exact List.getD_eq_getElem l d hle
  rw [h1]
  refine List.map_getElem_sublist ?_
  rw [List.pairwise_pmap]
  refine hp.imp_of_mem ?_
  intro a b ha hb' hab h1 h2
  exact hab

/-- Claim C5 (confirmed): on an ordered 120-item sequence (strictly sorted,
as the sorted distinct file paths of the loop are) the sampler returns
exactly 50 distinct items, a sublist of the input (hence in original
relative order) that contains the items at index 0 and index 119; and any
sequence of at most 50 items is returned unchanged. -/
theorem sampler_spec (l : List String) :
    (l.length = 120 → l.Sorted (· < ·) →
      (sampleFiles l).length = 50 ∧
      (sampleFiles l).Nodup ∧
      (sampleFiles l).Sublist l ∧
      l.getD 0 "" ∈ sampleFiles l ∧
      l.getD 119 "" ∈ sampleFiles l) ∧
    (l.length ≤ 50 → sampleFiles l = l) := by
  constructor
  · intro h120 hsort
    obtain ⟨hlen, hpair, hbound, h0, h119⟩ := sampleIndices_120_facts
    have hs : sampleFiles l =
        ((sampleIndices 120).map (fun i => l.getD i "")).mergeSort
          (fun a b => strLE a b) := by
      unfold sampleFiles
      rw [h120, if_pos (by decide : (50 : Nat) < 120)]
    have hbound' : ∀ i ∈ sampleIndices 120, i < l.length := by
      rw [h120]; exact hbound
    have hsub : ((sampleIndices 120).map (fun i => l.getD i "")).Sublist l :=
      map_getD_sublist l "" (sampleIndices 120) hpair hbound'
    have hsorted : ((sampleIndices 120).map (fun i => l.getD i "")).Pairwise (· < ·) :=
      List.Pairwise.sublist hsub hsort
    have hms : ((sampleIndices 120).map (fun i => l.getD i "")).mergeSort
        (fun a b => strLE a b) = (sampleIndices 120).map (fun i => l.getD i "") := by
      refine List.mergeSort_of_sorted ?_
      exact hsorted.imp (fun hab => strLE_of_lt hab)
    rw [hs, hms]
    refine ⟨by rw [List.length_map, hlen], ?_, hsub, ?_, ?_⟩
    · exact List.Sublist.nodup hsub hsort.nodup
    · exact List.mem_map.mpr ⟨0, h0, rfl⟩
    · exact List.mem_map.mpr ⟨119, h119, rfl⟩
  · intro hle
    unfold sampleFiles
    rw [if_neg (by omega)]

set_option maxRecDepth 8000 in
/-- Claim C5's theorem applied at concrete inputs: a sorted 120-item list is
sampled down to 50 items, and a 2-item list passes through unchanged. -/
theorem sampler_spec_witness :
    (sampleFiles witListC5).length = 50 ∧ sampleFiles ["a", "b"] = ["a", "b"] :=
  ⟨((sampler_spec witListC5).1 (by decide)
      (((by decide : witListC5.Pairwise (fun a b => lexLT a.data b.data = true)).imp
        (fun hab => String.lt_iff_toList_lt.mpr (lex_of_lexLT hab))))).1,
    (sampler_spec ["a", "b"]).2 (by decide)⟩

/-! ### Effect of the loop steps on cells -/

theorem matchingRows_ensure_row_of_not_hasKey (t : Table) (k' k : String)
    (h : hasKey t k' = false) :
    matchingRows (ensure_row t k') k =
      matchingRows t k ++ (if rowMatches (newRow k') k then [newRow k'] else []) := by
  rw [ensure_row_of_not_hasKey h, matchingRows, matchingRows, List.filter_append]
  cases hm : rowMatches (newRow k') k <;> simp [List.filter, hm]

theorem hasKey_of_filled {t : Table} {k c : String}
    (h : is_absent t k c = false) : hasKey t k = true := by
  rw [is_absent] at h
  cases hv : cellValues t k c with
  | nil => rw [hv] at h; simp at h
  | cons o os =>
    have : (matchingRows t k) ≠ [] := by
      intro hnil
      rw [cellValues, hnil] at hv
      simp at hv
    cases hm : matchingRows t k with
    | nil => exact absurd hm this
    | cons r rs =>
      have hr : r ∈ matchingRows t k := by rw [hm]; exact List.mem_cons_self _ _
      have := List.of_mem_filter hr
      exact List.any_eq_true.mpr ⟨r, List.mem_of_mem_filter hr, this⟩

theorem cellValues_ensure_row_ne (t : Table) (k' k c : String) (hne : k' ≠ k) :
    cellValues (ensure_row t k') k c = cellValues t k c := by
  cases h : hasKey t k' with
  | true => rw [ensure_row_of_hasKey h]
  | false =>
    rw [cellValues, matchingRows_ensure_row_of_not_hasKey t k' k h,
      rowMatches_newRow_ne k' k hne]
    simp [cellValues]

theorem cellValues_ensure_row_filled (t : Table) (k c : String)
    (h : is_absent t k c = false) :
    cellValues (ensure_row t k) k c = cellValues t k c := by
  rw [ensure_row_of_hasKey (hasKey_of_filled h)]

theorem is_absent_ensure_row_true (t : Table) (k' k c : String)
    (hc : c ≠ "id_video") (h : is_absent t k c = true) :
    is_absent (ensure_row t k') k c = true := by
  cases hk : hasKey t k' with
  | true => rw [ensure_row_of_hasKey hk]; exact h
  | false =>
    rw [is_absent, cellValues, matchingRows_ensure_row_of_not_hasKey t k' k hk]
    cases hm : rowMatches (newRow k') k <;>
      simp only [if_true, if_false, Bool.false_eq_true, List.append_nil,
        List.map_append, List.all_append]
    · exact h
    · rw [List.map_singleton, getCell_newRow_ne k' c hc]
      simp only [List.all_cons, List.all_nil, Option.isNone_none, Bool.and_true,
        Bool.true_and]
      exact h

theorem is_absent_ensure_row_false (t : Table) (k' k c : String)
    (h : is_absent t k c = false) :
    is_absent (ensure_row t k') k c = false := by
  cases hk : hasKey t k' with
  | true => rw [ensure_row_of_hasKey hk]; exact h
  | false =>
    rw [is_absent, cellValues, matchingRows_ensure_row_of_not_hasKey t k' k hk,
      List.map_append, List.all_append]
    rw [is_absent] at h
    rw [cellValues] at h
    rw [h]
    rfl

theorem mem_matchingRows {t : Table} {k : String} {r : TRow} :
    r ∈ matchingRows t k ↔ r ∈ t.rows ∧ rowMatches r k = true := by
  rw [matchingRows]
  exact List.mem_filter

theorem matchingRows_set_cell (t : Table) (k' c' v k : String)
    (hid : c' ≠ "id_video") :
    matchingRows (set_cell t k' c' v) k =
      (matchingRows t k).map
        (fun r => if rowMatches r k' then setCellRow r c' v else r) := by
  rw [matchingRows, set_cell, List.filter_map]
  rw [matchingRows, List.filter_congr]
  intro r hr
  simp only [Function.comp]
  cases hm : rowMatches r k' with
  | true => simp only [if_true, rowMatches_setCellRow r c' v k hid]
  | false => simp

theorem cellValues_set_cell_untouched (t : Table) (k' c' v k c : String)
    (hid : c' ≠ "id_video") (hne : ¬(k' = k ∧ c' = c)) :
    cellValues (set_cell t k' c' v) k c = cellValues t k c := by
  rw [cellValues, matchingRows_set_cell t k' c' v k hid, List.map_map, cellValues]
  refine List.map_congr_left ?_
  intro r hr
  have hrk : rowMatches r k = true := (mem_matchingRows.mp hr).2
  simp only [Function.comp]
  by_cases hkk : k' = k
  · have hcc : ¬ c' = c := fun hc => hne ⟨hkk, hc⟩
    subst hkk
    rw [hrk]
    simp only [if_true]
    rw [getCell_setCellRow, if_neg (fun hc => hcc hc.symm)]
  · have : rowMatches r k' = false := by
      cases hm : rowMatches r k' with
      | false => rfl
      | true => exact absurd (rowMatches_unique hm hrk) hkk
    rw [this]
    simp

theorem is_absent_set_cell_self (t : Table) (k c v : String)
    (hk : hasKey t k = true) (hid : c ≠ "id_video") :
    is_absent (set_cell t k c v) k c = false := by
  rw [is_absent, cellValues, matchingRows_set_cell t k c v k hid, List.map_map]
  obtain ⟨r, hr, hm⟩ := List.any_eq_true.mp hk
  have hrm : r ∈ matchingRows t k := List.mem_filter.mpr ⟨hr, hm⟩
  rw [List.all_eq_false]
  refine ⟨_, List.mem_map.mpr ⟨r, hrm, rfl⟩, ?_⟩
  simp only [Function.comp, hm, if_true]
  rw [getCell_setCellRow, if_pos rfl]
  simp

theorem is_absent_set_cell_false (t : Table) (k' c' v k c : String)
    (hid : c' ≠ "id_video") (h : is_absent t k c = false) :
    is_absent (set_cell t k' c' v) k c = false := by
  rw [is_absent, cellValues, matchingRows_set_cell t k' c' v k hid, List.map_map]
  rw [is_absent, List.all_eq_false] at h
  obtain ⟨o, ho, hno⟩ := h
  obtain ⟨r, hr, hro⟩ := List.mem_map.mp ho
  obtain ⟨w, hw⟩ : ∃ w, getCell r c = some w := by
    cases hg : getCell r c with
    | none => rw [← hro, hg] at hno; simp at hno
    | some w => exact ⟨w, rfl⟩
  rw [List.all_eq_false]
  refine ⟨_, List.mem_map.mpr ⟨r, hr, rfl⟩, ?_⟩
  simp only [Function.comp]
  cases hm : rowMatches r k' with
  | false => simp only [Bool.false_eq_true, if_false]; rw [hw]; simp
  | true =>
    simp only [if_true]
    rw [getCell_setCellRow]
    by_cases hcc : c = c'
    · rw [if_pos hcc]; simp
    · rw [if_neg hcc, hw]; simp

theorem col_ne_id_of_guard {t : Table} {k c : String}
    (hk : hasKey t k = true) (habs : is_absent t k c = true) : c ≠ "id_video" := by
  intro hc
  subst hc
  obtain ⟨r, hr, hm⟩ := List.any_eq_true.mp hk
  have hrm : r ∈ matchingRows t k := List.mem_filter.mpr ⟨hr, hm⟩
  have hg : getCell r "id_video" = some k := rowMatches_iff.mp hm
  rw [is_absent] at habs
  have := List.all_eq_true.mp habs (getCell r "id_video")
    (List.mem_map.mpr ⟨r, hrm, rfl⟩)
  rw [hg] at this
  simp at this

/-! ### Sorting pass lemmas -/

theorem all_eq_of_perm {α : Type _} {l1 l2 : List α} (h : l1.Perm l2) (p : α → Bool) :
    l1.all p = l2.all p := by
  induction h with
  | nil => rfl
  | cons x _ ih => simp [List.all_cons, ih]
  | swap x y l => simp [List.all_cons, Bool.and_left_comm]
  | trans _ _ ih1 ih2 => exact ih1.trans ih2

theorem perm_matchingRows_sort (t : Table) (k : String) :
    (matchingRows (sort_by_key t) k).Perm (matchingRows t k) := by
  rw [matchingRows, matchingRows, sort_by_key]
  exact (List.perm_insertionSort (fun r1 r2 => keyLE r1 r2 = true) t.rows).filter _

theorem perm_eq_of_short {α : Type _} {l1 l2 : List α} (h : l1.Perm l2)
    (hl : l2.length ≤ 1) : l1 = l2 := by
  cases l2 with
  | nil => exact h.eq_nil
  | cons a l =>
    cases l with
    | nil => exact List.perm_singleton.mp h
    | cons b l => simp at hl

theorem is_absent_sort (t : Table) (k c : String) :
    is_absent (sort_by_key t) k c = is_absent t k c := by
  rw [is_absent, is_absent, cellValues, cellValues]
  exact all_eq_of_perm ((perm_matchingRows_sort t k).map _) _

theorem cellValues_sort_short (t : Table) (k c : String)
    (h : (matchingRows t k).length ≤ 1) :
    cellValues (sort_by_key t) k c = cellValues t k c := by
  rw [cellValues, cellValues, perm_eq_of_short (perm_matchingRows_sort t k) h]

/-! ### Run-level invariants -/

theorem runUnits_cellValues (produce : AnnUnit → Except SourceError String)
    (us : List AnnUnit) :
    ∀ (t : Table) (k c : String), is_absent t k c = false →
    ∀ tf saves, runUnits produce us t = .ok (tf, saves) →
      cellValues tf k c = cellValues t k c := by
  induction us with
  | nil =>
    intro t k c _ tf saves hrun
    simp only [runUnits, Except.ok.injEq, Prod.mk.injEq] at hrun
    rw [← hrun.1]
  | cons u us ih =>
    intro t k c h tf saves hrun
    simp only [runUnits] at hrun
    have h1 : is_absent (ensure_row t u.key) k c = false :=
      is_absent_ensure_row_false t u.key k c h
    have hcv1 : cellValues (ensure_row t u.key) k c = cellValues t k c := by
      by_cases hku : u.key = k
      · rw [hku]
        exact cellValues_ensure_row_filled t k c h
      · exact cellValues_ensure_row_ne t u.key k c hku
    cases hguard : is_absent (ensure_row t u.key) u.key u.col with
    | false =>
      simp only [hguard, Bool.false_eq_true, if_false] at hrun
      rw [ih _ k c h1 tf saves hrun, hcv1]
    | true =>
      simp only [hguard, if_true] at hrun
      cases hp : produce u with
      | error err =>
        cases err with
        | rejected =>
          simp only [hp] at hrun
          rw [ih _ k c h1 tf saves hrun, hcv1]
        | unavailable =>
          simp only [hp] at hrun
          cases hrun
      | ok v =>
        simp only [hp] at hrun
        have hk1 : hasKey (ensure_row t u.key) u.key = true := hasKey_ensure_row t u.key
        have hcid : u.col ≠ "id_video" := col_ne_id_of_guard hk1 hguard
        have hne : ¬(u.key = k ∧ u.col = c) := by
          rintro ⟨hk2, hc2⟩
          rw [hk2, hc2] at hguard
          rw [hk2] at h1
          rw [hguard] at h1
          cases h1
        have hcv2 : cellValues (set_cell (ensure_row t u.key) u.key u.col v) k c =
            cellValues (ensure_row t u.key) k c :=
          cellValues_set_cell_untouched (ensure_row t u.key) u.key u.col v k c hcid hne
        have h2 : is_absent (set_cell (ensure_row t u.key) u.key u.col v) k c = false := by
          rw [is_absent, hcv2, ← is_absent]
          exact h1
        cases hrec : runUnits produce us (set_cell (ensure_row t u.key) u.key u.col v) with
        | ok pair =>
          obtain ⟨tf2, saves2⟩ := pair
          simp only [hrec, Except.ok.injEq, Prod.mk.injEq] at hrun
          rw [← hrun.1, ih _ k c h2 tf2 saves2 hrec, hcv2, hcv1]
        | error e =>
          obtain ⟨e1, te, saves2⟩ := e
          simp only [hrec] at hrun
          cases hrun

theorem runUnits_keeps_filled (produce : AnnUnit → Except SourceError String)
    (us : List AnnUnit) (t : Table) (k c : String) (h : is_absent t k c = false)
    (tf : Table) (saves : List Table)
    (hrun : runUnits produce us t = .ok (tf, saves)) :
    is_absent tf k c = false := by
  rw [is_absent, runUnits_cellValues produce us t k c h tf saves hrun, ← is_absent]
  exact h

theorem runUnits_keeps_absent (produce : AnnUnit → Except SourceError String)
    (k c : String) (hc : c ≠ "id_video") (us : List AnnUnit) :
    (∀ u ∈ us, u.key = k → u.col = c → ∀ v, produce u ≠ .ok v) →
    ∀ t, is_absent t k c = true →
    ∀ tf saves, runUnits produce us t = .ok (tf, saves) →
      is_absent tf k c = true ∧ ∀ s ∈ saves, is_absent s k c = true := by
  induction us with
  | nil =>
    intro _ t habs tf saves hrun
    simp only [runUnits, Except.ok.injEq, Prod.mk.injEq] at hrun
    refine ⟨by rw [← hrun.1]; exact habs, ?_⟩
    intro s hs
    rw [← hrun.2] at hs
    cases hs
  | cons u us ih =>
    intro hnof t habs tf saves hrun
    have hnof' : ∀ u' ∈ us, u'.key = k → u'.col = c → ∀ v, produce u' ≠ .ok v :=
      fun u' hu' => hnof u' (List.mem_cons_of_mem u hu')
    simp only [runUnits] at hrun
    have habs1 : is_absent (ensure_row t u.key) k c = true :=
      is_absent_ensure_row_true t u.key k c hc habs
    cases hguard : is_absent (ensure_row t u.key) u.key u.col with
    | false =>
      simp only [hguard, Bool.false_eq_true, if_false] at hrun
      exact ih hnof' _ habs1 tf saves hrun
    | true =>
      simp only [hguard, if_true] at hrun
      cases hp : produce u with
      | error err =>
        cases err with
        | rejected =>
          simp only [hp] at hrun
          exact ih hnof' _ habs1 tf saves hrun
        | unavailable =>
          simp only [hp] at hrun
          cases hrun
      | ok v =>
        simp only [hp] at hrun
        have hk1 : hasKey (ensure_row t u.key) u.key = true := hasKey_ensure_row t u.key
        have hcid : u.col ≠ "id_video" := col_ne_id_of_guard hk1 hguard
        have hne : ¬(u.key = k ∧ u.col = c) := by
          rintro ⟨hk2, hc2⟩
          exact hnof u (List.mem_cons_self u us) hk2 hc2 v hp
        have habs2 : is_absent (set_cell (ensure_row t u.key) u.key u.col v) k c = true := by
          rw [is_absent,
            cellValues_set_cell_untouched (ensure_row t u.key) u.key u.col v k c hcid hne,
            ← is_absent]
          exact habs1
        cases hrec : runUnits produce us (set_cell (ensure_row t u.key) u.key u.col v) with
        | ok pair =>
          obtain ⟨tf2, saves2⟩ := pair
          simp only [hrec, Except.ok.injEq, Prod.mk.injEq] at hrun
          obtain ⟨hres, hrest⟩ := ih hnof' _ habs2 tf2 saves2 hrec
          refine ⟨by rw [← hrun.1]; exact hres, ?_⟩
          intro s hs
          rw [← hrun.2] at hs
          cases hs with
          | head => exact habs2
          | tail _ hs' => exact hrest s hs'
        | error e =>
          obtain ⟨e1, te, saves2⟩ := e
          simp only [hrec] at hrun
          cases hrun

theorem runUnits_fills (produce : AnnUnit → Except SourceError String)
    (us : List AnnUnit) :
    ∀ t tf saves, runUnits produce us t = .ok (tf, saves) →
      ∀ u ∈ us, (∃ v, produce u = .ok v) → is_absent tf u.key u.col = false := by
  induction us with
  | nil =>
    intro t tf saves _ u hu
    cases hu
  | cons u0 us ih =>
    intro t tf saves hrun u hu hex
    simp only [runUnits] at hrun
    cases hguard : is_absent (ensure_row t u0.key) u0.key u0.col with
    | false =>
      simp only [hguard, Bool.false_eq_true, if_false] at hrun
      cases hu with
      | head =>
        exact runUnits_keeps_filled produce us _ u0.key u0.col hguard tf saves hrun
      | tail _ hu' => exact ih _ tf saves hrun u hu' hex
    | true =>
      simp only [hguard, if_true] at hrun
      cases hp : produce u0 with
      | error err =>
        cases err with
        | rejected =>
          simp only [hp] at hrun
          cases hu with
          | head =>
            obtain ⟨v, hv⟩ := hex
            rw [hp] at hv
            cases hv
          | tail _ hu' => exact ih _ tf saves hrun u hu' hex
        | unavailable =>
          simp only [hp] at hrun
          cases hrun
      | ok v =>
        simp only [hp] at hrun
        have hk1 : hasKey (ensure_row t u0.key) u0.key = true := hasKey_ensure_row t u0.key
        have hcid : u0.col ≠ "id_video" := col_ne_id_of_guard hk1 hguard
        cases hrec : runUnits produce us (set_cell (ensure_row t u0.key) u0.key u0.col v) with
        | ok pair =>
          obtain ⟨tf2, saves2⟩ := pair
          simp only [hrec, Except.ok.injEq, Prod.mk.injEq] at hrun
          cases hu with
          | head =>
            have hset : is_absent (set_cell (ensure_row t u0.key) u0.key u0.col v)
                u0.key u0.col = false :=
              is_absent_set_cell_self (ensure_row t u0.key) u0.key u0.col v hk1 hcid
            have hkf := runUnits_keeps_filled produce us _ u0.key u0.col hset tf2 saves2 hrec
            rw [← hrun.1]
            exact hkf
          | tail _ hu' =>
            rw [← hrun.1]
            exact ih _ tf2 saves2 hrec u hu' hex
        | error e =>
          obtain ⟨e1, te, saves2⟩ := e
          simp only [hrec] at hrun
          cases hrun

theorem runUnits_ok_exists (produce : AnnUnit → Except SourceError String)
    (us : List AnnUnit) (hna : ∀ u ∈ us, produce u ≠ .error .unavailable) :
    ∀ t, ∃ tf saves, runUnits produce us t = .ok (tf, saves) := by
  induction us with
  | nil => exact fun t => ⟨t, [], rfl⟩
  | cons u us ih =>
    intro t
    have hna' : ∀ u' ∈ us, produce u' ≠ .error .unavailable :=
      fun u' hu' => hna u' (List.mem_cons_of_mem u hu')
    cases hguard : is_absent (ensure_row t u.key) u.key u.col with
    | false =>
      obtain ⟨tf, saves, hr⟩ := ih hna' (ensure_row t u.key)
      refine ⟨tf, saves, ?_⟩
      simp only [runUnits, hguard, Bool.false_eq_true, if_false]
      exact hr
    | true =>
      cases hp : produce u with
      | ok v =>
        obtain ⟨tf, saves, hr⟩ := ih hna' (set_cell (ensure_row t u.key) u.key u.col v)
        refine ⟨tf, set_cell (ensure_row t u.key) u.key u.col v :: saves, ?_⟩
        simp only [runUnits, hguard, if_true, hp, hr]
      | error err =>
        cases err with
        | rejected =>
          obtain ⟨tf, saves, hr⟩ := ih hna' (ensure_row t u.key)
          refine ⟨tf, saves, ?_⟩
          simp only [runUnits, hguard, if_true, hp]
          exact hr
        | unavailable => exact absurd hp (hna u (List.mem_cons_self u us))

theorem runUnits_unavailable (produce : AnnUnit → Except SourceError String)
    (hall : ∀ u, produce u = .error .unavailable) (us : List AnnUnit) :
    ∀ t e te saves, runUnits produce us t = .error (e, te, saves) →
      e = .unavailable ∧ saves = [] ∧
      ∀ k c, c ≠ "id_video" → is_absent t k c = true → is_absent te k c = true := by
  induction us with
  | nil =>
    intro t e te saves hrun
    simp only [runUnits] at hrun
    cases hrun
  | cons u us ih =>
    intro t e te saves hrun
    simp only [runUnits] at hrun
    cases hguard : is_absent (ensure_row t u.key) u.key u.col with
    | false =>
      simp only [hguard, Bool.false_eq_true, if_false] at hrun
      obtain ⟨he, hs, hpres⟩ := ih (ensure_row t u.key) e te saves hrun
      refine ⟨he, hs, ?_⟩
      intro k c hc habs
      exact hpres k c hc (is_absent_ensure_row_true t u.key k c hc habs)
    | true =>
      simp only [hguard, if_true, hall u, Except.error.injEq, Prod.mk.injEq] at hrun
      obtain ⟨he, hte, hs⟩ := hrun
      refine ⟨he.symm, hs.symm, ?_⟩
      intro k c hc habs
      rw [← hte]
      exact is_absent_ensure_row_true t u.key k c hc habs

/-- Claim C1 (confirmed): a (key, column) cell holding a non-absent value is
never overwritten by a later annotator run, whatever the source returns:
the skip-if-present guard writes a column only when every matching row has
it absent.  Stated for a key with at most one matching row (the spec's
identifier-uniqueness invariant); the cell's value list over matching rows
is unchanged in the final saved table. -/
theorem annotator_never_overwrites (produce : AnnUnit → Except SourceError String)
    (units : List AnnUnit) (t : Table) (k c : String)
    (hfilled : is_absent t k c = false)
    (hone : (matchingRows t k).length ≤ 1)
    (tf : Table) (saves : List Table)
    (hrun : runAnnotator produce units t = .ok (tf, saves)) :
    cellValues tf k c = cellValues t k c := by
  cases hr : runUnits produce units t with
  | error e =>
    rw [runAnnotator, hr] at hrun
    cases hrun
  | ok pair =>
    obtain ⟨t0, saves0⟩ := pair
    rw [runAnnotator, hr] at hrun
    simp only [Except.ok.injEq, Prod.mk.injEq] at hrun
    have hcv := runUnits_cellValues produce units t k c hfilled t0 saves0 hr
    have hlen : (matchingRows t0 k).length ≤ 1 := by
      have hlv : (cellValues t0 k c).length = (cellValues t k c).length := by rw [hcv]
      rw [cellValues, cellValues, List.length_map, List.length_map] at hlv
      rw [hlv]
      exact hone
    rw [← hrun.1, cellValues_sort_short t0 k c hlen, hcv]

/-- Claim C1's theorem applied to a concrete rerun over a filled cell. -/
theorem annotator_never_overwrites_witness :
    cellValues witTableC1after "v1" "c1_description" =
      cellValues witTableC1 "v1" "c1_description" :=
  annotator_never_overwrites witProduceC1 witUnitsC1 witTableC1 "v1" "c1_description"
    (by decide) (by decide) witTableC1after [witTableC1after, witTableC1after] rfl

/-- Claim C4 (corrected): with a missing credential, every produce call
fails at client construction with the configuration error
(`SourceUnavailable`), which is not caught by the `RuntimeError` handler
and aborts the run; when the run aborts, nothing was ever saved and no
absent cell has been written.  (The original claim's "before any work
begins" is false: units are enumerated and rows may be appended in memory
before the first produce call raises, see the counterexample.) -/
theorem missing_credentials_abort (cfg : AzureConfig)
    (oracle : AnnUnit → Except SourceError String)
    (units : List AnnUnit) (t : Table) (hkey : cfg.apiKey = none)
    (e : SourceError) (te : Table) (saves : List Table)
    (hrun : runAnnotator (fun u => describeWithConfig cfg (oracle u)) units t =
      .error (e, te, saves)) :
    e = .unavailable ∧ saves = [] ∧
    ∀ k c, c ≠ "id_video" → is_absent t k c = true → is_absent te k c = true := by
  have hall : ∀ u, describeWithConfig cfg (oracle u) = .error .unavailable := by
    intro u
    rw [describeWithConfig, get_azure_openai_client, hkey]
  cases hr : runUnits (fun u => describeWithConfig cfg (oracle u)) units t with
  | ok pair =>
    obtain ⟨t0, saves0⟩ := pair
    rw [runAnnotator, hr] at hrun
    cases hrun
  | error e3 =>
    obtain ⟨e1, te1, saves1⟩ := e3
    rw [runAnnotator, hr] at hrun
    simp only [Except.error.injEq, Prod.mk.injEq] at hrun
    obtain ⟨he, hte, hs⟩ := hrun
    rw [← he, ← hte, ← hs]
    exact runUnits_unavailable (fun u => describeWithConfig cfg (oracle u)) hall units
      t e1 te1 saves1 hr

/-- Claim C4's counterexample: with credentials missing, the run does abort
with the configuration error — but only after the candidate unit has been
enumerated and processed up to the produce call: the in-memory table at
the abort already carries a freshly appended row, so the failure is not
raised "before any work begins" and the table was mutated first. -/
theorem missing_credentials_cex :
    runAnnotator cexProduceC4 cexUnitsC4 cexTableC4 =
      .error (.unavailable, { cols := schemaColumns, rows := [newRow "v1"] }, []) ∧
    ({ cols := schemaColumns, rows := [newRow "v1"] } : Table) ≠ cexTableC4 := by
  refine ⟨rfl, by decide⟩

/-- Claim C4's amended theorem at the same concrete scenario. -/
theorem missing_credentials_witness :
    SourceError.unavailable = SourceError.unavailable ∧ ([] : List Table) = [] ∧
    ∀ k c, c ≠ "id_video" → is_absent cexTableC4 k c = true →
      is_absent { cols := schemaColumns, rows := [newRow "v1"] } k c = true :=
  missing_credentials_abort cexConfigC4 (fun _ => .ok "A description") cexUnitsC4
    cexTableC4 rfl .unavailable { cols := schemaColumns, rows := [newRow "v1"] } [] rfl

/-- Claim C6 (corrected): when the source answers `SourceRejected` for one
unit (and no unit fails with `SourceUnavailable`, and any unit aimed at
the same cell is also rejected), the run completes normally; the rejected
cell, absent at the start, is still absent in the final table and in every
saved snapshot (nothing was written or saved for it), and every unit whose
produce succeeds ends with its cell filled.  (The original claim's "the
table is not mutated for that unit" is false: ensure_row may append an
empty row for the rejected unit's key before produce is called, see the
counterexample.) -/
theorem source_rejected_skips (produce : AnnUnit → Except SourceError String)
    (units : List AnnUnit) (t : Table) (u0 : AnnUnit)
    (h1 : ∀ u ∈ units, produce u ≠ .error .unavailable)
    (h4 : is_absent t u0.key u0.col = true)
    (h5 : u0.col ≠ "id_video")
    (h6 : ∀ u ∈ units, u.key = u0.key → u.col = u0.col →
      produce u = .error .rejected) :
    ∃ tf saves, runAnnotator produce units t = .ok (tf, saves) ∧
      is_absent tf u0.key u0.col = true ∧
      (∀ s ∈ saves, is_absent s u0.key u0.col = true) ∧
      ∀ u ∈ units, (∃ v, produce u = .ok v) → is_absent tf u.key u.col = false := by
  obtain ⟨t0, saves0, hr⟩ := runUnits_ok_exists produce units h1 t
  have hnof : ∀ u ∈ units, u.key = u0.key → u.col = u0.col →
      ∀ v, produce u ≠ .ok v := by
    intro u hu hk hc v hv
    rw [h6 u hu hk hc] at hv
    cases hv
  obtain ⟨habs, hsaves⟩ :=
    runUnits_keeps_absent produce u0.key u0.col h5 units hnof t h4 t0 saves0 hr
  have hfills := runUnits_fills produce units t t0 saves0 hr
  refine ⟨sort_by_key t0, saves0 ++ [sort_by_key t0], by rw [runAnnotator, hr], ?_, ?_, ?_⟩
  · rw [is_absent_sort]
    exact habs
  · intro s hs
    rcases List.mem_append.mp hs with hs' | hs'
    · exact hsaves s hs'
    · rw [List.mem_singleton.mp hs', is_absent_sort]
      exact habs
  · intro u hu hex
    rw [is_absent_sort]
    exact hfills u hu hex

/-- Claim C6's counterexample: processing a single rejected unit still
mutates the table — `ensure_row` appends an empty row for the unit's key
before produce is called — so "the table is not mutated for that unit" is
false (the cell itself does stay absent). -/
theorem source_rejected_cex :
    runAnnotator cexProduceC6 [⟨"v1", "c1_description"⟩] { cols := schemaColumns, rows := [] } =
      .ok ({ cols := schemaColumns, rows := [newRow "v1"] },
        [{ cols := schemaColumns, rows := [newRow "v1"] }]) ∧
    ({ cols := schemaColumns, rows := [newRow "v1"] } : Table) ≠
      { cols := schemaColumns, rows := [] } := by
  refine ⟨rfl, by decide⟩

/-- Claim C6's theorem applied to the spec's three-unit stub scenario. -/
theorem source_rejected_skips_witness :
    ∃ tf saves,
      runAnnotator witProduceC6 witUnitsC6 { cols := schemaColumns, rows := [] } =
        .ok (tf, saves) ∧
      is_absent tf "v1" "c2_description" = true ∧
      (∀ s ∈ saves, is_absent s "v1" "c2_description" = true) ∧
      ∀ u ∈ witUnitsC6, (∃ v, witProduceC6 u = .ok v) →
        is_absent tf u.key u.col = false :=
  source_rejected_skips witProduceC6 witUnitsC6 { cols := schemaColumns, rows := [] }
    ⟨"v1", "c2_description"⟩ (by decide) (by decide) (by decide) (by decide)

/-! ### Command normalization (C10) -/

theorem isUpper_toUpper {c : Char} (h : c.isAlpha = true) : c.toUpper.isUpper = true := by
  rw [Char.isAlpha, Bool.or_eq_true] at h
  rcases h with h | h
  · have hv : Char.ofNat c.toNat = c := Char.ofNat_toNat c
    simp only [Char.isUpper, Bool.and_eq_true, decide_eq_true_eq] at h
    have hnl : ¬(c.toNat ≥ 97 ∧ c.toNat ≤ 122) := by
      have h2 : c.toNat ≤ 90 := h.2
      omega
    rw [Char.toUpper, if_neg hnl]
    simp only [Char.isUpper, Bool.and_eq_true, decide_eq_true_eq]
    exact h
  · have hv : Char.ofNat c.toNat = c := Char.ofNat_toNat c
    simp only [Char.isLower, Bool.and_eq_true, decide_eq_true_eq] at h
    have h1 : 97 ≤ c.toNat := h.1
    have h2 : c.toNat ≤ 122 := h.2
    interval_cases h3 : c.toNat <;> rw [← hv] <;> decide

theorem isLower_toLower {c : Char} (h : c.isAlpha = true) : c.toLower.isLower = true := by
  rw [Char.isAlpha, Bool.or_eq_true] at h
  rcases h with h | h
  · have hv : Char.ofNat c.toNat = c := Char.ofNat_toNat c
    simp only [Char.isUpper, Bool.and_eq_true, decide_eq_true_eq] at h
    have h1 : 65 ≤ c.toNat := h.1
    have h2 : c.toNat ≤ 90 := h.2
    interval_cases h3 : c.toNat <;> rw [← hv] <;> decide
  · have hnl : ¬(c.toNat ≥ 65 ∧ c.toNat ≤ 90) := by
      simp only [Char.isLower, Bool.and_eq_true, decide_eq_true_eq] at h
      have h1 : 97 ≤ c.toNat := h.1
      omega
    rw [Char.toLower, if_neg hnl]
    exact h

theorem isUpper_isAlpha {c : Char} (h : c.isUpper = true) : c.isAlpha = true := by
  rw [Char.isAlpha, Bool.or_eq_true]
  exact Or.inl h

theorem isLower_isAlpha {c : Char} (h : c.isLower = true) : c.isAlpha = true := by
  rw [Char.isAlpha, Bool.or_eq_true]
  exact Or.inr h

theorem toNat_lt_of_ws {c : Char} (h : c.isWhitespace = true) : c.toNat < 33 := by
  simp only [Char.isWhitespace, Bool.or_eq_true, decide_eq_true_eq] at h
  rcases h with ((h | h) | h) | h <;> subst h <;> decide

theorem not_ws_of_isAlpha {c : Char} (h : c.isAlpha = true) : c.isWhitespace = false := by
  have h65 : 65 ≤ c.toNat := by
    rw [Char.isAlpha, Bool.or_eq_true] at h
    rcases h with h | h <;>
      simp only [Char.isUpper, Char.isLower, Bool.and_eq_true, decide_eq_true_eq] at h
    · exact h.1
    · have h1 : 97 ≤ c.toNat := h.1
      omega
  cases hw : c.isWhitespace with
  | false => rfl
  | true =>
    have := toNat_lt_of_ws hw
    omega

theorem not_ws_of_isUpper {c : Char} (h : c.isUpper = true) : c.isWhitespace = false :=
  not_ws_of_isAlpha (isUpper_isAlpha h)

theorem alpha_or_space_toUpper {c : Char} (h : c.isAlpha = true ∨ c = ' ') :
    c.toUpper.isAlpha = true ∨ c.toUpper = ' ' := by
  rcases h with h | h
  · exact Or.inl (isUpper_isAlpha (isUpper_toUpper h))
  · subst h
    exact Or.inr (by decide)

theorem alpha_or_space_toLower {c : Char} (h : c.isAlpha = true ∨ c = ' ') :
    c.toLower.isAlpha = true ∨ c.toLower = ' ' := by
  rcases h with h | h
  · exact Or.inl (isLower_isAlpha (isLower_toLower h))
  · subst h
    exact Or.inr (by decide)

theorem head_dropWhile_not {p : Char → Bool} :
    ∀ {l : List Char} {c : Char}, (l.dropWhile p).head? = some c → p c = false := by
  intro l
  induction l with
  | nil => intro c h; cases h
  | cons x xs ih =>
    intro c h
    rw [List.dropWhile_cons] at h
    by_cases hx : p x = true
    · rw [if_pos hx] at h
      exact ih h
    · rw [if_neg hx, List.head?_cons, Option.some.injEq] at h
      rw [← h]
      exact Bool.not_eq_true _ ▸ hx

theorem mem_stripTrailing {l : List Char} {x : Char} (h : x ∈ stripTrailing l) :
    x ∈ l := by
  rw [stripTrailing, List.mem_reverse] at h
  have := (List.dropWhile_sublist Char.isWhitespace).mem h
  rw [List.mem_reverse] at this
  exact this

theorem mem_pyStrip {l : List Char} {x : Char} (h : x ∈ pyStrip l) : x ∈ l := by
  rw [pyStrip] at h
  exact (List.dropWhile_sublist Char.isWhitespace).mem (mem_stripTrailing h)

theorem stripTrailing_getLast_not {l : List Char} {c : Char}
    (h : (stripTrailing l).getLast? = some c) : c.isWhitespace = false := by
  rw [stripTrailing, List.getLast?_reverse] at h
  exact head_dropWhile_not h

theorem pyStrip_getLast_not {l : List Char} {c : Char}
    (h : (pyStrip l).getLast? = some c) : c.isWhitespace = false :=
  stripTrailing_getLast_not h

theorem dropWhile_append_singleton {p : Char → Bool} {c : Char} (hc : p c = false) :
    ∀ (xs : List Char), (xs ++ [c]).dropWhile p = xs.dropWhile p ++ [c] := by
  intro xs
  induction xs with
  | nil => simp [List.dropWhile_cons, hc]
  | cons x xs ih =>
    by_cases hx : p x = true
    · simp only [List.cons_append, List.dropWhile_cons, hx, if_true, ih]
    · simp [List.cons_append, List.dropWhile_cons, hx]

theorem stripTrailing_cons_of_not {c : Char} {cs : List Char}
    (h : c.isWhitespace = false) :
    stripTrailing (c :: cs) = c :: stripTrailing cs := by
  rw [stripTrailing, stripTrailing, List.reverse_cons, dropWhile_append_singleton h,
    List.reverse_append]
  rfl

theorem pyStrip_head_not {l : List Char} {c : Char}
    (h : (pyStrip l).head? = some c) : c.isWhitespace = false := by
  rw [pyStrip] at h
  cases hd : l.dropWhile Char.isWhitespace with
  | nil => rw [hd] at h; cases h
  | cons c0 cs =>
    have hc0 : Char.isWhitespace c0 = false :=
      head_dropWhile_not (by rw [hd, List.head?_cons])
    rw [hd, stripTrailing_cons_of_not hc0, List.head?_cons, Option.some.injEq] at h
    rw [← h]
    exact hc0

theorem mapped_alpha_or_space {s : String} {x : Char}
    (h : x ∈ s.data.map (fun c => if c.isAlpha then c else ' ')) :
    x.isAlpha = true ∨ x = ' ' := by
  obtain ⟨c, hc, hx⟩ := List.mem_map.mp h
  by_cases ha : c.isAlpha = true
  · rw [if_pos ha] at hx
    rw [← hx]
    exact Or.inl ha
  · rw [if_neg ha] at hx
    exact Or.inr hx.symm

/-- Claim C10 (confirmed): every value the command-prediction loop stores —
`re.sub(r'[^a-zA-Z]', ' ', out).strip().capitalize()` then `.strip()` —
contains only ASCII letters and spaces, has no leading or trailing
whitespace, and when non-empty starts with an uppercase letter with every
later letter lowercase. -/
theorem stored_command_normal_form (s : String) :
    (∀ ch ∈ (storedCommand s).data, ch.isAlpha = true ∨ ch = ' ') ∧
    (∀ ch, (storedCommand s).data.head? = some ch → ch.isWhitespace = false) ∧
    (∀ ch, (storedCommand s).data.getLast? = some ch → ch.isWhitespace = false) ∧
    ((storedCommand s).data = [] ∨
      ∃ ch cs, (storedCommand s).data = ch :: cs ∧ ch.isUpper = true ∧
        ∀ x ∈ cs, x.isAlpha = true → x.isLower = true) := by
  have hdata : (storedCommand s).data =
      pyStrip (pyCapitalize (pyStrip
        (s.data.map (fun c => if c.isAlpha then c else ' ')))) := rfl
  cases hls : pyStrip (s.data.map (fun c => if c.isAlpha then c else ' ')) with
  | nil =>
    rw [hdata, hls]
    refine ⟨?_, ?_, ?_, Or.inl rfl⟩ <;> simp [pyCapitalize, pyStrip, stripTrailing]
  | cons c0 cs0 =>
    have hc0mem : c0 ∈ s.data.map (fun c => if c.isAlpha then c else ' ') :=
      mem_pyStrip (by rw [hls]; exact List.mem_cons_self c0 cs0)
    have hc0ws : c0.isWhitespace = false :=
      pyStrip_head_not (by rw [hls, List.head?_cons])
    have hc0alpha : c0.isAlpha = true := by
      rcases mapped_alpha_or_space hc0mem with h | h
      · exact h
      · rw [h] at hc0ws
        exact absurd hc0ws (by decide)
    have hupper : c0.toUpper.isUpper = true := isUpper_toUpper hc0alpha
    have huws : c0.toUpper.isWhitespace = false := not_ws_of_isUpper hupper
    have hstored : (storedCommand s).data =
        c0.toUpper :: stripTrailing (cs0.map Char.toLower) := by
      rw [hdata, hls]
      show pyStrip (c0.toUpper :: cs0.map Char.toLower) = _
      rw [pyStrip, List.dropWhile_cons,
        if_neg (by rw [huws]; exact Bool.false_ne_true)]
      exact stripTrailing_cons_of_not huws
    have htail : ∀ x ∈ stripTrailing (cs0.map Char.toLower),
        ∃ y, y ∈ cs0 ∧ x = y.toLower := by
      intro x hx
      obtain ⟨y, hy, hxy⟩ := List.mem_map.mp (mem_stripTrailing hx)
      exact ⟨y, hy, hxy.symm⟩
    have hcs0 : ∀ y ∈ cs0, y.isAlpha = true ∨ y = ' ' := by
      intro y hy
      exact mapped_alpha_or_space
        (mem_pyStrip (by rw [hls]; exact List.mem_cons_of_mem c0 hy))
    refine ⟨?_, ?_, ?_,
      Or.inr ⟨c0.toUpper, stripTrailing (cs0.map Char.toLower), hstored, hupper, ?_⟩⟩
    · intro ch hch
      rw [hstored] at hch
      cases hch with
      | head => exact Or.inl (isUpper_isAlpha hupper)
      | tail _ hch' =>
        obtain ⟨y, hy, hxy⟩ := htail ch hch'
        rw [hxy]
        exact alpha_or_space_toLower (hcs0 y hy)
    · intro ch hch
      rw [hstored, List.head?_cons, Option.some.injEq] at hch
      rw [← hch]
      exact huws
    · intro ch hch
      rw [hstored] at hch
      cases hst : stripTrailing (cs0.map Char.toLower) with
      | nil =>
        rw [hst] at hch
        simp only [List.getLast?_singleton, Option.some.injEq] at hch
        rw [← hch]
        exact huws
      | cons d ds =>
        rw [hst, List.getLast?_cons_cons] at hch
        exact stripTrailing_getLast_not (by rw [hst]; exact hch)
    · intro x hx halpha
      obtain ⟨y, hy, hxy⟩ := htail x hx
      rcases hcs0 y hy with h | h
      · rw [hxy]
        exact isLower_toLower h
      · rw [hxy, h] at halpha
        exact absurd halpha (by decide)

/-- Claim C10's theorem applied at a concrete model output. -/
theorem stored_command_normal_form_witness :
    (storedCommand "  mute  the mic!! ").data = [] ∨
      ∃ ch cs, (storedCommand "  mute  the mic!! ").data = ch :: cs ∧
        ch.isUpper = true ∧ ∀ x ∈ cs, x.isAlpha = true → x.isLower = true :=
  (stored_command_normal_form "  mute  the mic!! ").2.2.2
